import Mathlib

/-!
# Verification of the rust-vault crypto / storage / auth core

Shallow embedding of the core of the `vault` repository:
* `src/crypto.rs` — `SecretBox` (symmetric session box), `SealedBoxPublicKey`,
  `SealedBoxPrivateKey` (asymmetric sealed-box scheme), base-58 text forms;
* `src/db.rs` — the sqlite-backed entry store (`get_posts`, `write_entry`,
  `get_version`, `needs_upgrade`, `public_key`, `write_setting`, `create_db`);
* `src/server.rs` — cookie encryption (`encrypt_bytes` / `decrypt_bytes`),
  per-request authorization (`get_priv_key` / `logged_in`), the login POST
  handler, and the read path (`entry_to_post`).

Byte strings are `List Nat` with each byte `< 256` where that matters.
Randomness drawn inside the Rust functions (generated nonces, ephemeral
key material) is passed as an explicit argument of the embedded function.

The sodiumoxide primitives (`secretbox`, `sealedbox`, `box_` key pairs) and
the `bs58` codec are third-party libraries, not part of this repository;
they are modelled here by executable functions that satisfy the functional
contracts the repository relies on (layouts, length checks, round-trips,
failure on malformed input), as documented on each definition.
-/

namespace Vault

/-- A byte string: a list of naturals, each `< 256` where it matters. -/
abbrev Bytes := List Nat

/-! ## Model of the sodiumoxide secretbox primitive

`secretbox::seal / open` (XSalsa20-Poly1305): the ciphertext is a 16-byte
authentication tag followed by the plaintext XORed with a keystream derived
from key and nonce; `open` recomputes the tag and rejects mismatches.
`NONCEBYTES = 24` and the 16-byte tag match the real constants. The
keystream and tag functions are concrete stand-ins; only the layout, the
involutive stream XOR, and tag-checking are relied on. -/

/-- `secretbox::NONCEBYTES` -/
def NONCEBYTES : Nat := 24

/-- Poly1305 tag length used by `secretbox::seal`. -/
def TAGBYTES : Nat := 16

/-- Curve25519 key / seed length (`box_::PUBLICKEYBYTES` etc.). -/
def KEYBYTES : Nat := 32

/-- Model keystream byte `i` for a key and nonce. -/
def ksByte (key nonce : Bytes) (i : Nat) : Nat :=
  (key.sum * 3 + nonce.sum * 7 + i * 13 + 5) % 256

/-- XOR a byte string with the keystream, starting at stream position `i`. -/
def streamXor (key nonce : Bytes) : Nat → Bytes → Bytes
  | _, [] => []
  | i, b :: rest => (b ^^^ ksByte key nonce i) :: streamXor key nonce (i + 1) rest

/-- Model authentication tag over a ciphertext (16 bytes). -/
def tagOf (key nonce c : Bytes) : Bytes :=
  (List.range TAGBYTES).map
    (fun i => (key.sum * 11 + nonce.sum * 17 + c.sum * 23 + c.length * 29 + i) % 256)

/-- Model of `secretbox::seal data nonce key`: tag ++ stream-encrypted data. -/
def secretboxSeal (key nonce m : Bytes) : Bytes :=
  let c := streamXor key nonce 0 m
  tagOf key nonce c ++ c

/-- Model of `secretbox::open data nonce key`: split the tag, check it,
decrypt; `none` on short input or tag mismatch. -/
def secretboxOpen (key nonce data : Bytes) : Option Bytes :=
  if data.length < TAGBYTES then none
  else
    let tag := data.take TAGBYTES
    let c := data.drop TAGBYTES
    if tagOf key nonce c = tag then some (streamXor key nonce 0 c) else none

/-! ## Model of the sodiumoxide box_/sealedbox primitives

A Curve25519 public key is derived from a secret key by a fixed base-point
scalar multiplication; all the code relies on is that Diffie-Hellman
commutes: `dh esk (pubOf sk) = dh sk (pubOf esk)`. The model realises
`pubOf` as a bytewise affine map and `dh` as the matching bytewise
combination, which satisfies exactly that equation.

`sealedbox::seal m pk` generates an ephemeral key pair, prepends the
32-byte ephemeral public key, and box-encrypts `m` under the shared key
with a nonce derived from the two public keys; `open` re-derives the
shared key from the embedded ephemeral public key and the recipient's
secret key. -/

/-- Model bytewise public-key derivation (base-point scalar multiplication). -/
def pubByte (b : Nat) : Nat := (b + 77) % 256

/-- Model of deriving a public key from a secret key. -/
def pubOf (sk : Bytes) : Bytes := sk.map pubByte

/-- Model bytewise Diffie-Hellman combination (my secret byte, their public byte). -/
def dhByte (x y : Nat) : Nat := (x + y + 179) % 256

/-- Model of the Diffie-Hellman shared key. -/
def dh (sk pk : Bytes) : Bytes := List.zipWith dhByte sk pk

/-- Model of the sealed-box nonce derived from the two public keys. -/
def sealNonce (epk pk : Bytes) : Bytes :=
  (List.range NONCEBYTES).map (fun i => (epk.sum * 31 + pk.sum * 37 + i) % 256)

/-- Model of `box_::keypair_from_seed`: the secret key derived from a
32-byte seed (a hash in libsodium; a concrete bytewise map here, chosen so
that a seed never equals its own derived secret key on bytes `< 256`). -/
def skOfSeed (seed : Bytes) : Bytes := seed.map (fun b => (b * 3 + 101) % 256)

/-- Model of `sealedbox::seal m pk` with the ephemeral secret key `esk`
(drawn randomly inside the real function) passed explicitly. -/
def sealedboxSeal (esk m pk : Bytes) : Bytes :=
  let epk := pubOf esk
  epk ++ secretboxSeal (dh esk pk) (sealNonce epk pk) m

/-- Model of `sealedbox::open data pk sk`. -/
def sealedboxOpen (data pk sk : Bytes) : Option Bytes :=
  if data.length < KEYBYTES then none
  else
    let epk := data.take KEYBYTES
    secretboxOpen (dh sk epk) (sealNonce epk pk) (data.drop KEYBYTES)

/-! ## Model of the bs58 codec

The repository uses `bs58::encode / decode` (Bitcoin alphabet) only as an
injective textual codec for raw byte strings that rejects characters
outside the alphabet. The model encodes each byte as two base-58 digits
(rather than the big-integer digit packing of the real crate), which
preserves every property the code relies on: `decode (encode bs) = ok bs`,
decoded bytes are `< 256`, and decoding fails on invalid characters. -/

/-- The base-58 (Bitcoin) alphabet. -/
def ALPHABET : List Char :=
  ['1', '2', '3', '4', '5', '6', '7', '8', '9',
   'A', 'B', 'C', 'D', 'E', 'F', 'G', 'H', 'J', 'K', 'L', 'M', 'N',
   'P', 'Q', 'R', 'S', 'T', 'U', 'V', 'W', 'X', 'Y', 'Z',
   'a', 'b', 'c', 'd', 'e', 'f', 'g', 'h', 'i', 'j', 'k', 'm', 'n',
   'o', 'p', 'q', 'r', 's', 't', 'u', 'v', 'w', 'x', 'y', 'z']

/-- The index of a character in the base-58 alphabet, if any. -/
def digitOf (c : Char) : Option Nat := ALPHABET.findIdx? (fun x => x == c)

/-- Encode one byte as two base-58 digits. -/
def bs58EncodeByte (b : Nat) : List Char :=
  [ALPHABET.getD (b / 58) '1', ALPHABET.getD (b % 58) '1']

/-- Model of `bs58::encode(bytes).into_string()`. -/
def bs58Encode : Bytes → List Char
  | [] => []
  | b :: rest => bs58EncodeByte b ++ bs58Encode rest

/-- Model of `bs58::decode(value).into_vec()`: fails on characters outside
the alphabet (and on digit groups that denote no byte). -/
def bs58Decode : List Char → Except String Bytes
  | [] => .ok []
  | c1 :: c2 :: rest =>
    match digitOf c1, digitOf c2 with
    | some d1, some d2 =>
      let v := d1 * 58 + d2
      if v < 256 then
        match bs58Decode rest with
        | .ok bs => .ok (v :: bs)
        | .error e => .error e
      else .error "provided string contained an out-of-range digit group"
    | _, _ => .error "provided string contained invalid characters"
  | [_] => .error "provided string had an invalid length"

/-! ## Embedding of src/crypto.rs -/

/-- `SecretBox` (src/crypto.rs lines 8-11): a symmetric session key.
`SecretBox::generate` draws the key randomly; the embedding takes the key
as the structure's field, so a generated box is an arbitrary `SecretBox`. -/
structure SecretBox where
  key : Bytes
deriving DecidableEq

/-- `SecretBox::encrypt` (src/crypto.rs lines 20-27): `nonce ++ cipher`,
with the freshly generated random nonce passed explicitly. -/
def SecretBox.encrypt (sb : SecretBox) (nonce data : Bytes) : Bytes :=
  nonce ++ secretboxSeal sb.key nonce data

/-- `SecretBox::decrypt` (src/crypto.rs lines 29-39): reject inputs shorter
than the nonce, split at `NONCEBYTES`, open the remainder. -/
def SecretBox.decrypt (sb : SecretBox) (data : Bytes) : Except String Bytes :=
  if NONCEBYTES > data.length then
    .error "Expected at least 24 bytes for the nonce"
  else
    match secretboxOpen sb.key (data.take NONCEBYTES) (data.drop NONCEBYTES) with
    | some m => .ok m
    | none => .error "Error decrypting."

/-- `SealedBoxPublicKey` (src/crypto.rs lines 42-45). `PartialEq` is derived
in Rust, comparing raw key bytes. -/
structure SealedBoxPublicKey where
  key : Bytes
deriving DecidableEq

/-- `SealedBoxPublicKey::from_bytes` (src/crypto.rs lines 48-53):
`box_::PublicKey::from_slice` requires exactly 32 bytes. -/
def SealedBoxPublicKey.from_bytes (bytes : Bytes) : Except String SealedBoxPublicKey :=
  if bytes.length = KEYBYTES then .ok ⟨bytes⟩
  else .error "Wrong number of public key bytes"

/-- `SealedBoxPublicKey::from_base58` (src/crypto.rs lines 55-58). -/
def SealedBoxPublicKey.from_base58 (value : List Char) : Except String SealedBoxPublicKey := do
  let bytes ← bs58Decode value
  SealedBoxPublicKey.from_bytes bytes

/-- `SealedBoxPublicKey::encrypt` (src/crypto.rs lines 60-62):
`sealedbox::seal`, with the ephemeral secret key passed explicitly. -/
def SealedBoxPublicKey.encrypt (k : SealedBoxPublicKey) (esk bytes : Bytes) : Bytes :=
  sealedboxSeal esk bytes k.key

/-- The `Display` impl for `SealedBoxPublicKey` (src/crypto.rs lines 67-71). -/
def SealedBoxPublicKey.display (k : SealedBoxPublicKey) : List Char :=
  bs58Encode k.key

/-- `SealedBoxPrivateKey` (src/crypto.rs lines 73-77). -/
structure SealedBoxPrivateKey where
  public_key : SealedBoxPublicKey
  private_key : Bytes
deriving DecidableEq

/-- `SealedBoxPrivateKey::generate` (src/crypto.rs lines 80-86):
`box_::gen_keypair` draws the secret key randomly; it is passed explicitly
and the public key is derived from it. -/
def SealedBoxPrivateKey.generate (sk : Bytes) : SealedBoxPrivateKey :=
  ⟨⟨pubOf sk⟩, sk⟩

/-- `SealedBoxPrivateKey::from_bytes` (src/crypto.rs lines 93-103):
requires exactly 32 bytes and derives the public key
(`private_key.public_key()` = base-point scalar multiplication). -/
def SealedBoxPrivateKey.from_bytes (bytes : Bytes) : Except String SealedBoxPrivateKey :=
  if bytes.length = KEYBYTES then .ok ⟨⟨pubOf bytes⟩, bytes⟩
  else .error "Wrong number of private key bytes"

/-- `SealedBoxPrivateKey::from_base58` (src/crypto.rs lines 88-91). -/
def SealedBoxPrivateKey.from_base58 (value : List Char) : Except String SealedBoxPrivateKey := do
  let bytes ← bs58Decode value
  SealedBoxPrivateKey.from_bytes bytes

/-- `SealedBoxPrivateKey::from_base58_seed` (src/crypto.rs lines 106-114):
decode, require a 32-byte seed, derive the key pair from it
(`box_::keypair_from_seed`). -/
def SealedBoxPrivateKey.from_base58_seed (value : List Char) : Except String SealedBoxPrivateKey := do
  let bytes ← bs58Decode value
  if bytes.length = KEYBYTES then .ok ⟨⟨pubOf (skOfSeed bytes)⟩, skOfSeed bytes⟩
  else .error "Wrong number of seed bytes"

/-- `SealedBoxPrivateKey::public` (src/crypto.rs line 116). -/
def SealedBoxPrivateKey.public (k : SealedBoxPrivateKey) : SealedBoxPublicKey :=
  k.public_key

/-- `SealedBoxPrivateKey::decrypt` (src/crypto.rs lines 118-122):
`sealedbox::open` with this pair's public and private keys. -/
def SealedBoxPrivateKey.decrypt (k : SealedBoxPrivateKey) (bytes : Bytes) : Except String Bytes :=
  match sealedboxOpen bytes k.public_key.key k.private_key with
  | some m => .ok m
  | none => .error "Error decrypting"

/-- A UTF-8 continuation byte (`0x80..=0xBF`). -/
def isCont (b : Nat) : Bool := 0x80 ≤ b && b ≤ 0xBF

/-- Model of Rust's `core::str` UTF-8 validation (Unicode Table 3-7, as
`String::from_utf8` checks it): ASCII, 2-byte `C2..DF`, 3-byte with the
`E0`/`ED` special second-byte ranges excluding overlongs and surrogates,
4-byte with the `F0`/`F4` special ranges. -/
def utf8Valid : Bytes → Bool
  | [] => true
  | b :: rest =>
    if b ≤ 0x7F then utf8Valid rest
    else if 0xC2 ≤ b ∧ b ≤ 0xDF then
      match rest with
      | b1 :: rest2 => isCont b1 && utf8Valid rest2
      | [] => false
    else if b = 0xE0 then
      match rest with
      | b1 :: b2 :: rest2 => (0xA0 ≤ b1 && b1 ≤ 0xBF) && isCont b2 && utf8Valid rest2
      | _ => false
    else if (0xE1 ≤ b ∧ b ≤ 0xEC) ∨ b = 0xEE ∨ b = 0xEF then
      match rest with
      | b1 :: b2 :: rest2 => isCont b1 && isCont b2 && utf8Valid rest2
      | _ => false
    else if b = 0xED then
      match rest with
      | b1 :: b2 :: rest2 => (0x80 ≤ b1 && b1 ≤ 0x9F) && isCont b2 && utf8Valid rest2
      | _ => false
    else if b = 0xF0 then
      match rest with
      | b1 :: b2 :: b3 :: rest2 =>
        (0x90 ≤ b1 && b1 ≤ 0xBF) && isCont b2 && isCont b3 && utf8Valid rest2
      | _ => false
    else if 0xF1 ≤ b ∧ b ≤ 0xF3 then
      match rest with
      | b1 :: b2 :: b3 :: rest2 => isCont b1 && isCont b2 && isCont b3 && utf8Valid rest2
      | _ => false
    else if b = 0xF4 then
      match rest with
      | b1 :: b2 :: b3 :: rest2 =>
        (0x80 ≤ b1 && b1 ≤ 0x8F) && isCont b2 && isCont b3 && utf8Valid rest2
      | _ => false
    else false

/-- `SealedBoxPrivateKey::decrypt_string` (src/crypto.rs lines 124-127):
decrypt, then `String::from_utf8`, which fails on invalid UTF-8. A Rust
`String` is exactly its UTF-8 byte buffer and `from_utf8` returns the
input bytes unchanged on success, so the successful value is modelled by
the byte string itself. -/
def SealedBoxPrivateKey.decrypt_string (k : SealedBoxPrivateKey) (bytes : Bytes) :
    Except String Bytes := do
  let decrypted ← k.decrypt bytes
  if utf8Valid decrypted then .ok decrypted
  else .error "invalid utf-8 sequence"

/-- `SealedBoxPrivateKey::bytes` (src/crypto.rs lines 129-131). -/
def SealedBoxPrivateKey.bytes (k : SealedBoxPrivateKey) : Bytes :=
  k.private_key

/-- The `Display` impl for `SealedBoxPrivateKey` (src/crypto.rs lines 135-139). -/
def SealedBoxPrivateKey.display (k : SealedBoxPrivateKey) : List Char :=
  bs58Encode k.private_key

/-- A key pair is well formed when its public key is derived from its
private key and the private key has 32 bytes — the invariant every
constructor of `SealedBoxPrivateKey` establishes. -/
def SealedBoxPrivateKey.wf (k : SealedBoxPrivateKey) : Prop :=
  k.public_key.key = pubOf k.private_key ∧ k.private_key.length = KEYBYTES

/-! ## Embedding of src/db.rs

The sqlite database is modelled as a `DbState`: the `settings` table (a
key/value list, key unique) and the `entry` table (a list of rows, with
`timestamp_ms_utc` as primary key — uniqueness enforced by `write_entry`).
The sqlx queries become pure functions on this state; `fetch_one` failure
("no rows returned") and `INSERT` unique-constraint failure become
`Except.error`. -/

/-- `DB_VERSION` (src/db.rs line 9). -/
def DB_VERSION : Nat := 1

/-- `SETTING_PUBLIC_KEY` (src/db.rs line 11). -/
def SETTING_PUBLIC_KEY : String := "publicKey"

/-- `SETTING_VERSION` (src/db.rs line 12). -/
def SETTING_VERSION : String := "version"

/-- `Entry` (src/db.rs lines 114-124): timestamp in ms UTC (i64), UTC
offset in minutes (i32), sealed contents blob. -/
structure Entry where
  timestamp_ms_utc : Int
  offset_utc_mins : Int
  contents : Bytes
deriving DecidableEq

/-- The state of the vault's sqlite file: the two tables created by
`create_db` (src/db.rs lines 136-144). Settings values are text. -/
structure DbState where
  settings : List (String × List Char)
  entries : List Entry
deriving DecidableEq

/-- `ReadQuery` (src/server.rs lines 356-365): optional HTTP pagination
parameters. -/
structure ReadQuery where
  offset : Option Nat
  limit : Option Nat
deriving DecidableEq

/-- The `ORDER BY timestamp_ms_utc DESC` comparison used by `get_posts`. -/
def tsDesc (a b : Entry) : Prop := b.timestamp_ms_utc ≤ a.timestamp_ms_utc

instance : DecidableRel tsDesc := fun a b =>
  inferInstanceAs (Decidable (b.timestamp_ms_utc ≤ a.timestamp_ms_utc))

instance : IsTotal Entry tsDesc := ⟨fun a b => le_total b.timestamp_ms_utc a.timestamp_ms_utc⟩

instance : IsTrans Entry tsDesc := ⟨fun _ _ _ h1 h2 => le_trans h2 h1⟩

/-- `VaultExt::get_posts` (src/db.rs lines 41-53): `SELECT ... FROM entry
ORDER BY timestamp_ms_utc DESC LIMIT offset, limit`, with offset defaulting
to 0 and limit to 50 when the query leaves them unset. -/
def DbState.get_posts (st : DbState) (query : ReadQuery) : List Entry :=
  ((List.insertionSort tsDesc st.entries).drop (query.offset.getD 0)).take (query.limit.getD 50)

/-- `VaultExt::write_entry` (src/db.rs lines 55-67): `INSERT INTO entry`;
the primary key on `timestamp_ms_utc` (src/db.rs lines 138-144) makes a
colliding insert fail and leave the table unchanged. -/
def DbState.write_entry (st : DbState) (e : Entry) : Except String DbState :=
  if st.entries.any (fun x => x.timestamp_ms_utc == e.timestamp_ms_utc) then
    .error "UNIQUE constraint failed: entry.timestamp_ms_utc"
  else .ok { st with entries := e :: st.entries }

/-- `SELECT value FROM settings WHERE key = ?` with `fetch_one`
(src/db.rs lines 70-73 and 94-97): errors when the row is missing. -/
def DbState.get_setting (st : DbState) (key : String) : Except String (List Char) :=
  match st.settings.find? (fun kv => kv.fst == key) with
  | some kv => .ok kv.snd
  | none => .error "no rows returned by a query that expected to return at least one row"

/-- One decimal digit of a version string. -/
def decDigit? (c : Char) : Option Nat :=
  if '0' ≤ c ∧ c ≤ '9' then some (c.toNat - '0'.toNat) else none

/-- Accumulate decimal digits; fails on any non-digit. -/
def parseDecAux : Nat → List Char → Option Nat
  | acc, [] => some acc
  | acc, c :: rest =>
    match decDigit? c with
    | some d => parseDecAux (acc * 10 + d) rest
    | none => none

/-- Model of Rust's `str::parse::<u32>`: non-empty decimal digits, value
within u32 range. -/
def parseU32 (s : List Char) : Option Nat :=
  match s with
  | [] => none
  | _ =>
    match parseDecAux 0 s with
    | some v => if v < 2 ^ 32 then some v else none
    | none => none

/-- `VaultExt::get_version` (src/db.rs lines 69-77): read the `version`
setting and parse it as a u32. -/
def DbState.get_version (st : DbState) : Except String Nat := do
  let version_str ← st.get_setting SETTING_VERSION
  match parseU32 version_str with
  | some v => .ok v
  | none => .error "Error parsing DB version"

/-- `VaultExt::needs_upgrade` (src/db.rs lines 80-91): false exactly when
the stored version equals `DB_VERSION`; both the older and the newer branch
return true. -/
def DbState.needs_upgrade (st : DbState) : Except String Bool := do
  let version ← st.get_version
  if version = DB_VERSION then .ok false
  else if DB_VERSION > version then .ok true
  else .ok true

/-- `VaultExt::public_key` (src/db.rs lines 93-101): read the `publicKey`
setting and decode it from base-58. -/
def DbState.public_key (st : DbState) : Except String SealedBoxPublicKey := do
  let key_str ← st.get_setting SETTING_PUBLIC_KEY
  SealedBoxPublicKey.from_base58 key_str

/-- `VaultExt::write_setting` (src/db.rs lines 103-110): `INSERT INTO
settings`; the primary key on `key` makes a duplicate insert fail. -/
def DbState.write_setting (st : DbState) (key : String) (value : List Char) :
    Except String DbState :=
  if st.settings.any (fun kv => kv.fst == key) then
    .error "UNIQUE constraint failed: settings.key"
  else .ok { st with settings := st.settings ++ [(key, value)] }

/-- `create_db` (src/db.rs lines 128-148): refuse when the file exists;
otherwise create the settings table with `version = '1'` and the empty
entry table. -/
def create_db (file_exists : Bool) : Except String DbState :=
  if file_exists then .error "Database already exists"
  else .ok { settings := [(SETTING_VERSION, ['1'])], entries := [] }

/-- Modelled from the spec: `InitCommand::run` (src/main.rs lines 70-74) is
`todo!()` in the source, so the initialization entry point that stores the
caller-supplied public key is missing from the repository. Per spec §4.3
(`initialize(location)` "creates the settings table (version=1,
publicKey=<caller-supplied>) and the empty entry table") and §6, it is
modelled as `create_db` (embedded from source) followed by writing the
`publicKey` setting in its base-58 form via the source `write_setting`. -/
def init_store (file_exists : Bool) (pk : SealedBoxPublicKey) : Except String DbState := do
  let db ← create_db file_exists
  db.write_setting SETTING_PUBLIC_KEY (bs58Encode pk.key)

/-! ## Embedding of src/server.rs

The pieces of `AppState` the claims touch are the process `SecretBox` and
the server `SealedBoxPublicKey`; a request's `login` cookie is an
`Option (List Char)`. -/

/-- `RequestExt::decrypt_bytes` (src/server.rs lines 71-75): base-58 decode
the cookie value, then decrypt with the process secret box. -/
def decrypt_bytes (sb : SecretBox) (cookieValue : List Char) : Except String (Option Bytes) := do
  let cypher ← bs58Decode cookieValue
  let decrypted ← sb.decrypt cypher
  .ok (some decrypted)

/-- `RequestExt::encrypt_bytes` (src/server.rs lines 77-80): encrypt with
the process secret box (fresh random nonce passed explicitly) and set the
cookie value to the base-58 encoding. -/
def encrypt_bytes (sb : SecretBox) (nonce data : Bytes) : List Char :=
  bs58Encode (sb.encrypt nonce data)

/-- `RequestExt::set_priv_key` (src/server.rs lines 95-99): build the
`login` cookie whose value encrypts the private-key bytes. -/
def set_priv_key (sb : SecretBox) (nonce key : Bytes) : List Char :=
  encrypt_bytes sb nonce key

/-- `RequestExt::get_priv_key` (src/server.rs lines 82-93): no cookie means
`Ok(None)`; otherwise decrypt the cookie value and rebuild the private key
from the bytes, propagating failures as errors. -/
def get_priv_key (sb : SecretBox) (cookie : Option (List Char)) :
    Except String (Option SealedBoxPrivateKey) :=
  match cookie with
  | none => .ok none
  | some c => do
    let key_bytes? ← decrypt_bytes sb c
    match key_bytes? with
    | none => .ok none
    | some key_bytes => do
      let k ← SealedBoxPrivateKey.from_bytes key_bytes
      .ok (some k)

/-- `RequestExt::logged_in` (src/server.rs lines 101-106): true only when
`get_priv_key` returns `Ok(Some _)`; every error counts as not logged in. -/
def logged_in (sb : SecretBox) (cookie : Option (List Char)) : Bool :=
  match get_priv_key sb cookie with
  | .ok (some _) => true
  | _ => false

/-- The spec's per-request `AuthSession` states. -/
inductive AuthState where
  | anonymous
  | authenticated (key : SealedBoxPrivateKey)
deriving DecidableEq

/-- The spec's `authorize(token)`: the per-request state reconstructed from
the cookie, as the code does in `logged_in` / `read_posts`
(src/server.rs lines 101-106 and 282-288) — `Authenticated` exactly when
`get_priv_key` yields `Ok(Some key)`, `Anonymous` for everything else. -/
def authorize (sb : SecretBox) (cookie : Option (List Char)) : AuthState :=
  match get_priv_key sb cookie with
  | .ok (some k) => .authenticated k
  | _ => .anonymous

/-- The observable outcome of the login POST handler (src/server.rs lines
198-230), one constructor per branch: success redirects and sets the
cookie; the three failure branches render the login page with no cookie
and are distinguished by what they print (`Bad secret`, `You supplied the
seed for the private key`, `Login attempt with incorrect private key`). -/
inductive LoginResult where
  | success (cookie : List Char)
  | badSecret
  | suppliedSeed
  | wrongKey
deriving DecidableEq

/-- The login POST handler (src/server.rs lines 198-230): parse the secret
as a base-58 private key; on a public-key match issue the cookie; otherwise
try the secret as a base-58 seed and report the distinguished seed outcome
when that derived public key matches. -/
def login (server_key : SealedBoxPublicKey) (sb : SecretBox) (nonce : Bytes)
    (secretText : List Char) : LoginResult :=
  match SealedBoxPrivateKey.from_base58 secretText with
  | .error _ => .badSecret
  | .ok secret =>
    if secret.public = server_key then
      .success (set_priv_key sb nonce secret.bytes)
    else
      match SealedBoxPrivateKey.from_base58_seed secretText with
      | .ok secret2 => if secret2.public = server_key then .suppliedSeed else .wrongKey
      | .error _ => .wrongKey

/-- The rendered data of one post; markdown-to-html conversion and
timestamp formatting are excluded web plumbing, so the decrypted text and
the raw timestamp are kept. -/
structure Post where
  timestamp_ms : Int
  text : Bytes
deriving DecidableEq

/-- `entry_to_post` (src/server.rs lines 325-339): decrypt the entry's
contents to a string; any failure propagates. -/
def entry_to_post (key : SealedBoxPrivateKey) (e : Entry) : Except String Post := do
  let markdown ← key.decrypt_string e.contents
  .ok { timestamp_ms := e.timestamp_ms_utc, text := markdown }

/-- The collection step of `read_posts` (src/server.rs lines 293-299):
`collect` over per-entry results fails as soon as any entry fails. -/
def entries_to_posts (key : SealedBoxPrivateKey) : List Entry → Except String (List Post)
  | [] => .ok []
  | e :: rest => do
    let p ← entry_to_post key e
    let ps ← entries_to_posts key rest
    .ok (p :: ps)

/-- The startup gate of `async_run_server` (src/server.rs lines 119-130):
bail when the database needs an upgrade, then load the public key. -/
def server_startup (st : DbState) : Except String SealedBoxPublicKey := do
  let up ← st.needs_upgrade
  if up then .error "Database needs an upgrade"
  else st.public_key

/-! ## Lemmas about the primitive models -/

theorem length_streamXor (key nonce : Bytes) :
    ∀ (i : Nat) (m : Bytes), (streamXor key nonce i m).length = m.length
  | _, [] => rfl
  | i, _ :: rest => by
    simp [streamXor, length_streamXor key nonce (i + 1) rest]

theorem streamXor_streamXor (key nonce : Bytes) :
    ∀ (i : Nat) (m : Bytes), streamXor key nonce i (streamXor key nonce i m) = m
  | _, [] => rfl
  | i, b :: rest => by
    simp only [streamXor, streamXor_streamXor key nonce (i + 1) rest]
    rw [Nat.xor_assoc, Nat.xor_self, Nat.xor_zero]

theorem streamXor_lt (key nonce : Bytes) :
    ∀ (i : Nat) (m : Bytes), (∀ b ∈ m, b < 256) →
      ∀ b ∈ streamXor key nonce i m, b < 256
  | _, [], _ => by simp [streamXor]
  | i, b :: rest, h => by
    simp only [streamXor, List.mem_cons, forall_eq_or_imp]
    constructor
    · have hb : b < 2 ^ 8 := h b (List.mem_cons_self b rest)
      have hk : ksByte key nonce i < 2 ^ 8 := Nat.mod_lt _ (by norm_num)
      exact Nat.xor_lt_two_pow hb hk
    · exact fun x hx =>
        streamXor_lt key nonce (i + 1) rest (fun y hy => h y (List.mem_cons_of_mem b hy)) x hx

theorem length_tagOf (key nonce c : Bytes) : (tagOf key nonce c).length = TAGBYTES := by
  simp [tagOf]

theorem tagOf_lt (key nonce c : Bytes) : ∀ b ∈ tagOf key nonce c, b < 256 := by
  intro b hb
  simp only [tagOf, List.mem_map] at hb
  obtain ⟨i, _, rfl⟩ := hb
  exact Nat.mod_lt _ (by norm_num)

/-- secretbox round trip: opening a sealed box with the same key and nonce
recovers the plaintext. -/
theorem secretboxOpen_secretboxSeal (key nonce m : Bytes) :
    secretboxOpen key nonce (secretboxSeal key nonce m) = some m := by
  unfold secretboxSeal secretboxOpen
  have hlen : (tagOf key nonce (streamXor key nonce 0 m)).length = TAGBYTES :=
    length_tagOf _ _ _
  rw [if_neg (by simp [hlen]), List.take_left' hlen, List.drop_left' hlen, if_pos rfl,
    streamXor_streamXor]

theorem length_secretboxSeal (key nonce m : Bytes) :
    (secretboxSeal key nonce m).length = TAGBYTES + m.length := by
  simp [secretboxSeal, length_tagOf, length_streamXor]

theorem secretboxSeal_lt (key nonce m : Bytes) (h : ∀ b ∈ m, b < 256) :
    ∀ b ∈ secretboxSeal key nonce m, b < 256 := by
  intro b hb
  simp only [secretboxSeal, List.mem_append] at hb
  rcases hb with hb | hb
  · exact tagOf_lt key nonce _ b hb
  · exact streamXor_lt key nonce 0 m h b hb

theorem dhByte_pubByte (x y : Nat) : dhByte x (pubByte y) = (x + y) % 256 := by
  unfold dhByte pubByte
  omega

/-- The modelled Diffie-Hellman combination commutes, as the real one does. -/
theorem dh_pubOf_comm (a b : Bytes) : dh a (pubOf b) = dh b (pubOf a) := by
  unfold dh pubOf
  rw [List.zipWith_map_right, List.zipWith_map_right]
  have h1 : (fun x y => dhByte x (pubByte y)) = fun x y => (x + y) % 256 := by
    funext x y
    exact dhByte_pubByte x y
  rw [h1]
  exact List.zipWith_comm_of_comm _ (fun x y => by rw [Nat.add_comm]) a b

theorem length_pubOf (sk : Bytes) : (pubOf sk).length = sk.length := by
  simp [pubOf]

/-- sealedbox round trip: a box sealed for `pubOf sk` opens with `sk`. -/
theorem sealedboxOpen_sealedboxSeal (sk esk m : Bytes) (hesk : esk.length = KEYBYTES) :
    sealedboxOpen (sealedboxSeal esk m (pubOf sk)) (pubOf sk) sk = some m := by
  unfold sealedboxSeal sealedboxOpen
  dsimp only
  have hepk : (pubOf esk).length = KEYBYTES := by rw [length_pubOf, hesk]
  rw [if_neg (by simp [hepk]), List.take_left' hepk, List.drop_left' hepk,
    dh_pubOf_comm sk esk, secretboxOpen_secretboxSeal]

/-! ## Lemmas about the bs58 model -/

theorem digitOf_getD (d : Nat) (hd : d < 58) :
    digitOf (ALPHABET.getD d '1') = some d := by
  interval_cases d <;> rfl

theorem bs58Decode_bs58Encode (bytes : Bytes) (h : ∀ b ∈ bytes, b < 256) :
    bs58Decode (bs58Encode bytes) = .ok bytes := by
  induction bytes with
  | nil => rfl
  | cons b rest ih =>
    have hb : b < 256 := h b (List.mem_cons_self b rest)
    have hrest := ih (fun y hy => h y (List.mem_cons_of_mem b hy))
    have hd1 : digitOf (ALPHABET.getD (b / 58) '1') = some (b / 58) :=
      digitOf_getD _ (by omega)
    have hd2 : digitOf (ALPHABET.getD (b % 58) '1') = some (b % 58) :=
      digitOf_getD _ (by omega)
    show bs58Decode (ALPHABET.getD (b / 58) '1' :: ALPHABET.getD (b % 58) '1' :: bs58Encode rest) = _
    simp only [bs58Decode, hd1, hd2]
    have hv : b / 58 * 58 + b % 58 = b := by omega
    rw [hv, if_pos hb, hrest]

theorem bs58Decode_lt : ∀ (s : List Char) (bs : Bytes), bs58Decode s = .ok bs →
    ∀ b ∈ bs, b < 256
  | [], bs, h => by
    simp only [bs58Decode, Except.ok.injEq] at h
    subst h
    intro b hb
    simp at hb
  | c1 :: c2 :: rest, bs, h => by
    simp only [bs58Decode] at h
    cases hd1 : digitOf c1 with
    | none =>
      simp only [hd1] at h
      exact absurd h (by simp)
    | some d1 =>
      cases hd2 : digitOf c2 with
      | none =>
        simp only [hd1, hd2] at h
        exact absurd h (by simp)
      | some d2 =>
        simp only [hd1, hd2] at h
        by_cases hv : d1 * 58 + d2 < 256
        · rw [if_pos hv] at h
          cases hrec : bs58Decode rest with
          | ok bs2 =>
            rw [hrec] at h
            simp only [Except.ok.injEq] at h
            subst h
            intro b hb
            rcases List.mem_cons.mp hb with rfl | hb
            · exact hv
            · exact bs58Decode_lt rest bs2 hrec b hb
          | error e =>
            rw [hrec] at h
            exact absurd h (by simp)
        · rw [if_neg hv] at h
          exact absurd h (by simp)
  | [_], bs, h => by
    simp only [bs58Decode] at h
    exact absurd h (by simp)

/-! ## Small facts about the embedded constructors -/

theorem from_bytes_wf (b : Bytes) (k : SealedBoxPrivateKey)
    (h : SealedBoxPrivateKey.from_bytes b = .ok k) :
    k.wf ∧ k.private_key = b := by
  unfold SealedBoxPrivateKey.from_bytes at h
  split at h
  · rename_i hc
    cases h
    exact ⟨⟨rfl, hc⟩, rfl⟩
  · exact absurd h (by simp)

theorem from_base58_inv (s : List Char) (k : SealedBoxPrivateKey)
    (h : SealedBoxPrivateKey.from_base58 s = .ok k) :
    bs58Decode s = .ok k.private_key ∧ k.wf := by
  unfold SealedBoxPrivateKey.from_base58 at h
  cases hdec : bs58Decode s with
  | error e =>
    rw [hdec] at h
    exact absurd h (by simp [Bind.bind, Except.bind])
  | ok bytes =>
    rw [hdec] at h
    simp only [Bind.bind, Except.bind] at h
    obtain ⟨hwf, hpriv⟩ := from_bytes_wf bytes k h
    exact ⟨by rw [hpriv], hwf⟩

theorem from_base58_seed_inv (s : List Char) (k : SealedBoxPrivateKey)
    (h : SealedBoxPrivateKey.from_base58_seed s = .ok k) :
    ∃ seed, bs58Decode s = .ok seed ∧ seed.length = KEYBYTES ∧
      k = ⟨⟨pubOf (skOfSeed seed)⟩, skOfSeed seed⟩ := by
  unfold SealedBoxPrivateKey.from_base58_seed at h
  cases hdec : bs58Decode s with
  | error e =>
    rw [hdec] at h
    exact absurd h (by simp [Bind.bind, Except.bind])
  | ok bytes =>
    rw [hdec] at h
    simp only [Bind.bind, Except.bind] at h
    split at h
    · rename_i hc
      cases h
      exact ⟨bytes, rfl, hc, rfl⟩
    · exact absurd h (by simp)

/-! ## Claim theorems -/

/-- The symmetric round trip, shared by several claims. -/
theorem secretbox_decrypt_encrypt (sb : SecretBox) (nonce m : Bytes)
    (hn : nonce.length = NONCEBYTES) :
    sb.decrypt (sb.encrypt nonce m) = .ok m := by
  unfold SecretBox.encrypt SecretBox.decrypt
  have hlen : ¬ (NONCEBYTES > (nonce ++ secretboxSeal sb.key nonce m).length) := by
    rw [List.length_append, hn, length_secretboxSeal]
    omega
  rw [if_neg hlen, List.take_left' hn, List.drop_left' hn, secretboxOpen_secretboxSeal]

/-- Encrypted-cookie round trip: decrypting an `encrypt_bytes` cookie value
with the same secret box recovers the data. -/
theorem decrypt_bytes_encrypt_bytes (sb : SecretBox) (nonce data : Bytes)
    (hn : nonce.length = NONCEBYTES) (hnb : ∀ b ∈ nonce, b < 256)
    (hd : ∀ b ∈ data, b < 256) :
    decrypt_bytes sb (encrypt_bytes sb nonce data) = .ok (some data) := by
  unfold decrypt_bytes encrypt_bytes
  have hc : ∀ b ∈ sb.encrypt nonce data, b < 256 := by
    intro b hb
    unfold SecretBox.encrypt at hb
    rcases List.mem_append.mp hb with h | h
    · exact hnb b h
    · exact secretboxSeal_lt _ _ _ hd b h
  rw [bs58Decode_bs58Encode _ hc]
  simp only [Bind.bind, Except.bind]
  rw [secretbox_decrypt_encrypt sb nonce data hn]

/-- Parsing the base-58 form of 32 raw private-key bytes rebuilds the key pair. -/
theorem from_base58_encode (bytes : Bytes) (h256 : ∀ b ∈ bytes, b < 256)
    (hlen : bytes.length = KEYBYTES) :
    SealedBoxPrivateKey.from_base58 (bs58Encode bytes) = .ok ⟨⟨pubOf bytes⟩, bytes⟩ := by
  unfold SealedBoxPrivateKey.from_base58
  rw [bs58Decode_bs58Encode bytes h256]
  simp only [Bind.bind, Except.bind]
  unfold SealedBoxPrivateKey.from_bytes
  rw [if_pos hlen]

/-- Parsing the base-58 form of a 32-byte seed derives the seed's key pair. -/
theorem from_base58_seed_encode (bytes : Bytes) (h256 : ∀ b ∈ bytes, b < 256)
    (hlen : bytes.length = KEYBYTES) :
    SealedBoxPrivateKey.from_base58_seed (bs58Encode bytes) =
      .ok ⟨⟨pubOf (skOfSeed bytes)⟩, skOfSeed bytes⟩ := by
  unfold SealedBoxPrivateKey.from_base58_seed
  rw [bs58Decode_bs58Encode bytes h256]
  simp only [Bind.bind, Except.bind]
  rw [if_pos hlen]

/-- C5: Symmetric round-trip — for every byte string `m` and session key
`s`, decrypting the token produced by encrypting `m` under `s` returns
exactly `m`; the token is the (fixed-length, 24-byte) nonce concatenated
with the authenticated ciphertext, and decrypt splits at that length. -/
theorem symmetric_roundtrip (sb : SecretBox) (nonce m : Bytes)
    (hn : nonce.length = NONCEBYTES) :
    sb.encrypt nonce m = nonce ++ secretboxSeal sb.key nonce m ∧
    sb.decrypt (sb.encrypt nonce m) = .ok m :=
  ⟨rfl, secretbox_decrypt_encrypt sb nonce m hn⟩

/-- Witness for C5 at a concrete key, nonce and message. -/
theorem symmetric_roundtrip_witness :
    (SecretBox.mk (List.replicate 32 3)).decrypt
      ((SecretBox.mk (List.replicate 32 3)).encrypt (List.replicate 24 5) [7, 8]) = .ok [7, 8] :=
  (symmetric_roundtrip ⟨List.replicate 32 3⟩ (List.replicate 24 5) [7, 8] (by decide)).2

/-- C1: Asymmetric round-trip — every key pair produced by `generate`,
`from_bytes`, `from_base58` or `from_base58_seed` is well formed (public
key derived from the 32-byte private key), and for every well-formed pair
`k` and byte string `m`, decrypting with `k` the sealed ciphertext produced
by encrypting `m` under `k`'s public key returns exactly `m` (for any
ephemeral key material the sealing draws). -/
theorem asymmetric_roundtrip :
    (∀ sk : Bytes, sk.length = KEYBYTES → (SealedBoxPrivateKey.generate sk).wf) ∧
    (∀ b k, SealedBoxPrivateKey.from_bytes b = .ok k → k.wf) ∧
    (∀ s k, SealedBoxPrivateKey.from_base58 s = .ok k → k.wf) ∧
    (∀ s k, SealedBoxPrivateKey.from_base58_seed s = .ok k → k.wf) ∧
    (∀ (k : SealedBoxPrivateKey) (m esk : Bytes), k.wf → esk.length = KEYBYTES →
      k.decrypt (k.public.encrypt esk m) = .ok m) := by
  refine ⟨?_, ?_, ?_, ?_, ?_⟩
  · exact fun sk h => ⟨rfl, h⟩
  · exact fun b k h => (from_bytes_wf b k h).1
  · exact fun s k h => (from_base58_inv s k h).2
  · intro s k h
    obtain ⟨seed, _, hlen, rfl⟩ := from_base58_seed_inv s k h
    exact ⟨rfl, by simp [skOfSeed, SealedBoxPrivateKey.wf, hlen]⟩
  · intro k m esk hwf hesk
    obtain ⟨hpub, _⟩ := hwf
    unfold SealedBoxPrivateKey.decrypt SealedBoxPublicKey.encrypt SealedBoxPrivateKey.public
    rw [hpub, sealedboxOpen_sealedboxSeal _ _ _ hesk]

/-- Witness for C1: a generated key pair round-trips a concrete message. -/
theorem asymmetric_roundtrip_witness :
    (SealedBoxPrivateKey.generate (List.replicate 32 9)).decrypt
      ((SealedBoxPrivateKey.generate (List.replicate 32 9)).public.encrypt
        (List.replicate 32 4) [104, 105]) = .ok [104, 105] :=
  asymmetric_roundtrip.2.2.2.2 _ [104, 105] (List.replicate 32 4)
    (asymmetric_roundtrip.1 (List.replicate 32 9) (by decide)) (by decide)

/-- C2: Login success — when the submitted secret parses as a base-58
private key whose derived public key equals the server's public key, the
login handler succeeds and issues the cookie token, and decrypting that
token with the process session key yields exactly the original private-key
bytes; when the derived public key differs, no token is issued. -/
theorem login_success (server_key : SealedBoxPublicKey) (sb : SecretBox) (nonce : Bytes)
    (secretText : List Char) (k : SealedBoxPrivateKey)
    (hparse : SealedBoxPrivateKey.from_base58 secretText = .ok k)
    (hn : nonce.length = NONCEBYTES) (hnb : ∀ b ∈ nonce, b < 256) :
    (k.public = server_key →
      login server_key sb nonce secretText = .success (set_priv_key sb nonce k.bytes) ∧
      decrypt_bytes sb (set_priv_key sb nonce k.bytes) = .ok (some k.bytes)) ∧
    (k.public ≠ server_key → ∀ c, login server_key sb nonce secretText ≠ .success c) := by
  have hkb : ∀ b ∈ k.bytes, b < 256 :=
    bs58Decode_lt secretText k.private_key (from_base58_inv secretText k hparse).1
  constructor
  · intro hmatch
    constructor
    · unfold login
      rw [hparse]
      dsimp only
      rw [if_pos hmatch]
    · exact decrypt_bytes_encrypt_bytes sb nonce k.bytes hn hnb hkb
  · intro hne c
    unfold login
    rw [hparse]
    dsimp only
    rw [if_neg hne]
    cases hseed : SealedBoxPrivateKey.from_base58_seed secretText with
    | ok s2 =>
      dsimp only
      split <;> simp
    | error e => simp

/-- Witness for C2 at a concrete server key, session key, nonce and secret. -/
theorem login_success_witness :
    login ⟨pubOf (List.replicate 32 2)⟩ ⟨[10]⟩ (List.replicate 24 6)
        (bs58Encode (List.replicate 32 2)) =
      .success (set_priv_key ⟨[10]⟩ (List.replicate 24 6) (List.replicate 32 2)) ∧
    decrypt_bytes ⟨[10]⟩ (set_priv_key ⟨[10]⟩ (List.replicate 24 6) (List.replicate 32 2)) =
      .ok (some (List.replicate 32 2)) :=
  (login_success ⟨pubOf (List.replicate 32 2)⟩ ⟨[10]⟩ (List.replicate 24 6)
      (bs58Encode (List.replicate 32 2)) ⟨⟨pubOf (List.replicate 32 2)⟩, List.replicate 32 2⟩
      (by rfl) (by decide) (by decide)).1 rfl

/-- C3: Per-request authorization — for every token (absent, non-base-58,
shorter than the nonce, tampered, or foreign), `authorize` yields the
`Anonymous` state rather than an error; only a token whose decryption
chain succeeds with valid private-key bytes yields `Authenticated`. -/
theorem authorize_total (sb : SecretBox) :
    authorize sb none = .anonymous ∧
    (∀ tok, authorize sb tok = .anonymous ∨ ∃ k, authorize sb tok = .authenticated k) ∧
    (∀ tok e, get_priv_key sb tok = .error e → authorize sb tok = .anonymous) ∧
    (∀ tok k, authorize sb tok = .authenticated k ↔ get_priv_key sb tok = .ok (some k)) ∧
    (∀ tok bytes, bs58Decode tok = .ok bytes → bytes.length < NONCEBYTES →
      authorize sb (some tok) = .anonymous) := by
  refine ⟨rfl, ?_, ?_, ?_, ?_⟩
  · intro tok
    unfold authorize
    cases hg : get_priv_key sb tok with
    | ok o =>
      cases o with
      | none => exact Or.inl rfl
      | some k => exact Or.inr ⟨k, rfl⟩
    | error e => exact Or.inl rfl
  · intro tok e h
    unfold authorize
    rw [h]
  · intro tok k
    constructor
    · intro h
      unfold authorize at h
      cases hg : get_priv_key sb tok with
      | ok o =>
        cases o with
        | none => rw [hg] at h; exact absurd h (by simp)
        | some k2 =>
          rw [hg] at h
          cases h
          rfl
      | error e => rw [hg] at h; exact absurd h (by simp)
    · intro h
      unfold authorize
      rw [h]
  · intro tok bytes hdec hshort
    have hde : sb.decrypt bytes = .error "Expected at least 24 bytes for the nonce" := by
      unfold SecretBox.decrypt
      rw [if_pos hshort]
    unfold authorize get_priv_key decrypt_bytes
    simp only [Bind.bind, Except.bind, hdec, hde]

/-- Witness for C3: a malformed concrete token yields the anonymous state. -/
theorem authorize_total_witness :
    authorize ⟨[10]⟩ (some ['0']) = .anonymous :=
  (authorize_total ⟨[10]⟩).2.2.1 (some ['0'])
    "provided string had an invalid length" (by rfl)

/-- C4: Legacy seed fallback — when the submitted secret is the base-58
form of the 32-byte seed the server's key pair was derived from, login
fails without issuing a token, with the distinguished seed outcome
(the branch that tells the user the correct private key), which is
distinct from the wrong-key outcome an unrelated private key produces. -/
theorem login_seed_outcome (seed : Bytes) (sb : SecretBox) (nonce : Bytes)
    (hlen : seed.length = KEYBYTES) (hb : ∀ b ∈ seed, b < 256)
    (hne : pubOf seed ≠ pubOf (skOfSeed seed)) :
    (login ⟨pubOf (skOfSeed seed)⟩ sb nonce (bs58Encode seed) = .suppliedSeed ∧
     ∀ c, login ⟨pubOf (skOfSeed seed)⟩ sb nonce (bs58Encode seed) ≠ .success c) ∧
    LoginResult.suppliedSeed ≠ LoginResult.wrongKey ∧
    (∀ u : Bytes, u.length = KEYBYTES → (∀ b ∈ u, b < 256) →
      pubOf u ≠ pubOf (skOfSeed seed) → pubOf (skOfSeed u) ≠ pubOf (skOfSeed seed) →
      login ⟨pubOf (skOfSeed seed)⟩ sb nonce (bs58Encode u) = .wrongKey) := by
  have hrun : login ⟨pubOf (skOfSeed seed)⟩ sb nonce (bs58Encode seed) = .suppliedSeed := by
    unfold login
    rw [from_base58_encode seed hb hlen]
    dsimp only
    rw [if_neg (by simp [SealedBoxPrivateKey.public, hne]),
      from_base58_seed_encode seed hb hlen]
    dsimp only
    simp [SealedBoxPrivateKey.public]
  refine ⟨⟨hrun, ?_⟩, by simp, ?_⟩
  · intro c hc
    rw [hrun] at hc
    exact absurd hc (by simp)
  · intro u hulen hub hu1 hu2
    unfold login
    rw [from_base58_encode u hub hulen]
    dsimp only
    rw [if_neg (by simp [SealedBoxPrivateKey.public, hu1]),
      from_base58_seed_encode u hub hulen]
    dsimp only
    rw [if_neg (by simp [SealedBoxPrivateKey.public, hu2])]

/-- Witness for C4: a concrete seed whose derived key pair is the server's. -/
theorem login_seed_outcome_witness :
    login ⟨pubOf (skOfSeed (List.replicate 32 1))⟩ ⟨[10]⟩ []
        (bs58Encode (List.replicate 32 1)) = .suppliedSeed :=
  (login_seed_outcome (List.replicate 32 1) ⟨[10]⟩ []
    (by decide) (by decide) (by decide)).1.1

/-- C6: Initialization — `init_store` fails with an already-exists error
when a file is already at the target path, and on success produces a store
whose settings table holds `version = 1` and the caller-supplied public key
(base-58), plus an empty entry table, in one setup step. -/
theorem init_store_spec (pk : SealedBoxPublicKey) :
    init_store true pk = .error "Database already exists" ∧
    init_store false pk = .ok
      { settings := [(SETTING_VERSION, ['1']), (SETTING_PUBLIC_KEY, bs58Encode pk.key)],
        entries := [] } :=
  ⟨rfl, rfl⟩

/-- C7: Pagination law — with pairwise-distinct timestamps, `get_posts`
returns `min limit (N - offset)` entries, strictly descending by timestamp,
skipping the first `offset` entries of that order; unspecified offset and
limit default to 0 and 50; `page(0,k) ++ page(k,N-k) = page(0,N)`. -/
theorem pagination (st : DbState)
    (hdist : st.entries.Pairwise (fun a b => a.timestamp_ms_utc ≠ b.timestamp_ms_utc)) :
    st.get_posts ⟨none, none⟩ = st.get_posts ⟨some 0, some 50⟩ ∧
    (∀ offset limit : Nat,
      (st.get_posts ⟨some offset, some limit⟩).length =
        min limit (st.entries.length - offset)) ∧
    (∀ offset limit : Nat,
      (st.get_posts ⟨some offset, some limit⟩).Pairwise
        (fun a b => b.timestamp_ms_utc < a.timestamp_ms_utc)) ∧
    (∀ k, k ≤ st.entries.length →
      st.get_posts ⟨some 0, some k⟩ ++ st.get_posts ⟨some k, some (st.entries.length - k)⟩ =
        st.get_posts ⟨some 0, some st.entries.length⟩) := by
  have hlenL : (List.insertionSort tsDesc st.entries).length = st.entries.length :=
    (List.perm_insertionSort tsDesc st.entries).length_eq
  refine ⟨rfl, ?_, ?_, ?_⟩
  · intro offset limit
    unfold DbState.get_posts
    rw [List.length_take, List.length_drop, hlenL]
    rfl
  · intro offset limit
    have hsorted : (List.insertionSort tsDesc st.entries).Pairwise tsDesc :=
      List.sorted_insertionSort tsDesc st.entries
    have hne : (List.insertionSort tsDesc st.entries).Pairwise
        (fun a b => a.timestamp_ms_utc ≠ b.timestamp_ms_utc) :=
      ((List.perm_insertionSort tsDesc st.entries).pairwise_iff
        (fun h => h.symm)).mpr hdist
    have hstrict : (List.insertionSort tsDesc st.entries).Pairwise
        (fun a b => b.timestamp_ms_utc < a.timestamp_ms_utc) :=
      (hsorted.and hne).imp (fun h => lt_of_le_of_ne h.1 (Ne.symm h.2))
    exact List.Pairwise.sublist
      ((List.take_sublist _ _).trans (List.drop_sublist _ _)) hstrict
  · intro k hk
    unfold DbState.get_posts
    dsimp only [Option.getD]
    rw [List.drop_zero, ← List.take_add]
    have hsum : k + (st.entries.length - k) = st.entries.length := by omega
    rw [hsum]

/-- Witness for C7 at a concrete two-entry store. -/
theorem pagination_witness :
    ((DbState.mk [] [⟨2, 0, []⟩, ⟨1, 0, []⟩]).get_posts ⟨some 1, some 5⟩).length =
      min 5 ((DbState.mk [] [⟨2, 0, []⟩, ⟨1, 0, []⟩]).entries.length - 1) :=
  (pagination ⟨[], [⟨2, 0, []⟩, ⟨1, 0, []⟩]⟩ (by decide)).2.1 1 5

/-- C8: Append uniqueness — appending an entry whose timestamp collides
with a stored one fails with the unique-constraint error (the `Except`
error carries no successor state: the store is unchanged, nothing is
overwritten and no row is added), while a fresh timestamp succeeds,
prepending exactly the new row and leaving everything else intact. -/
theorem append_uniqueness (st : DbState) (e : Entry) :
    ((∃ x ∈ st.entries, x.timestamp_ms_utc = e.timestamp_ms_utc) →
      st.write_entry e = .error "UNIQUE constraint failed: entry.timestamp_ms_utc") ∧
    ((∀ x ∈ st.entries, x.timestamp_ms_utc ≠ e.timestamp_ms_utc) →
      st.write_entry e = .ok { st with entries := e :: st.entries }) ∧
    (∀ st', st.write_entry e = .ok st' →
      st'.settings = st.settings ∧ st'.entries = e :: st.entries) := by
  refine ⟨?_, ?_, ?_⟩
  · intro ⟨x, hx, hts⟩
    unfold DbState.write_entry
    rw [if_pos (List.any_eq_true.mpr ⟨x, hx, by simp [hts]⟩)]
  · intro h
    unfold DbState.write_entry
    rw [if_neg]
    simp only [List.any_eq_true, beq_iff_eq, not_exists]
    intro x
    rw [not_and]
    exact h x
  · intro st' h
    unfold DbState.write_entry at h
    split at h
    · exact absurd h (by simp)
    · cases h
      exact ⟨rfl, rfl⟩

/-- Witness for C8: a colliding concrete append fails. -/
theorem append_uniqueness_witness :
    DbState.write_entry ⟨[], [⟨5, 0, []⟩]⟩ ⟨5, 60, [1]⟩ =
      .error "UNIQUE constraint failed: entry.timestamp_ms_utc" :=
  (append_uniqueness ⟨[], [⟨5, 0, []⟩]⟩ ⟨5, 60, [1]⟩).1 ⟨⟨5, 0, []⟩, by decide, rfl⟩

/-- C9: Schema version gate — for a stored version `v`, `needs_upgrade`
returns true iff `v` differs from the expected version 1 (older or newer),
and then the server startup refuses to operate with the upgrade error, so
no read/write entry point is ever reachable. -/
theorem schema_version_gate (st : DbState) (v : Nat) (hv : st.get_version = .ok v) :
    (st.needs_upgrade = .ok true ↔ v ≠ DB_VERSION) ∧
    (v ≠ DB_VERSION → server_startup st = .error "Database needs an upgrade") := by
  have key : st.needs_upgrade = (if v = DB_VERSION then Except.ok false else Except.ok true) := by
    unfold DbState.needs_upgrade
    rw [hv]
    simp only [Bind.bind, Except.bind]
    by_cases hveq : v = DB_VERSION
    · rw [if_pos hveq, if_pos hveq]
    · rw [if_neg hveq, if_neg hveq]
      split <;> rfl
  constructor
  · constructor
    · intro h hveq
      rw [key, if_pos hveq] at h
      exact absurd h (by simp)
    · intro hne
      rw [key, if_neg hne]
  · intro hne
    unfold server_startup
    rw [key, if_neg hne]
    simp [Bind.bind, Except.bind]

/-- Witness for C9: a store whose settings row says version 2 refuses to start. -/
theorem schema_version_gate_witness :
    server_startup ⟨[("version", ['2'])], []⟩ = .error "Database needs an upgrade" :=
  (schema_version_gate ⟨[("version", ['2'])], []⟩ 2 (by rfl)).2 (by decide)

/-- When some entry of the list fails to convert, the whole collection
fails. -/
theorem entries_to_posts_error (key : SealedBoxPrivateKey) :
    ∀ (l : List Entry), (∃ e ∈ l, ∃ m, entry_to_post key e = .error m) →
      ∃ m, entries_to_posts key l = .error m
  | [], h => absurd h (by simp)
  | e :: rest, h => by
    cases hh : entry_to_post key e with
    | error m => exact ⟨m, by simp [entries_to_posts, hh, Bind.bind, Except.bind]⟩
    | ok p =>
      obtain ⟨e2, he2, m, hm⟩ := h
      rcases List.mem_cons.mp he2 with rfl | he2
      · rw [hh] at hm
        exact absurd hm (by simp)
      · obtain ⟨m2, hm2⟩ := entries_to_posts_error key rest ⟨e2, he2, m, hm⟩
        exact ⟨m2, by simp [entries_to_posts, hh, hm2, Bind.bind, Except.bind]⟩

/-- C10: Implicit UTF-8 constraint on the read path — when asymmetric
decryption succeeds but the recovered bytes are not valid UTF-8,
`decrypt_string` returns an error rather than a string, and any page of
entries containing such a stored entry makes the whole read fail. -/
theorem decrypt_string_utf8 (k : SealedBoxPrivateKey) (c b : Bytes)
    (hd : k.decrypt c = .ok b)
    (hutf : utf8Valid b = false) :
    k.decrypt_string c = .error "invalid utf-8 sequence" ∧
    (∀ (pre post : List Entry) (ts off : Int),
      ∃ msg, entries_to_posts k (pre ++ ⟨ts, off, c⟩ :: post) = .error msg) := by
  have hds : k.decrypt_string c = .error "invalid utf-8 sequence" := by
    unfold SealedBoxPrivateKey.decrypt_string
    rw [hd]
    simp only [Bind.bind, Except.bind]
    rw [hutf]
    rfl
  refine ⟨hds, ?_⟩
  intro pre post ts off
  apply entries_to_posts_error
  exact ⟨⟨ts, off, c⟩, by simp, "invalid utf-8 sequence",
    by simp [entry_to_post, hds, Bind.bind, Except.bind]⟩

/-- Witness for C10: a concrete sealed non-UTF-8 byte fails the read path. -/
theorem decrypt_string_utf8_witness :
    (SealedBoxPrivateKey.generate (List.replicate 32 8)).decrypt_string
      ((SealedBoxPrivateKey.generate (List.replicate 32 8)).public.encrypt
        (List.replicate 32 4) [255]) = .error "invalid utf-8 sequence" :=
  (decrypt_string_utf8 (SealedBoxPrivateKey.generate (List.replicate 32 8))
    ((SealedBoxPrivateKey.generate (List.replicate 32 8)).public.encrypt
      (List.replicate 32 4) [255]) [255] (by rfl) (by rfl)).1

end Vault
